import Mathlib

/-!
# A shallow embedding of the `kv` log-structured key-value store

This file models `src/lib.rs` of the `kv` repository: a persistent
key-value store backed by a single append-only log file of
newline-delimited JSON records plus an in-memory index mapping each
key to the byte range of its most recent record.

Modelling conventions:
* File contents and strings are byte sequences, `List Nat` (each
  element a byte value `< 256`; we never need the bound).  Rust
  `String`s are UTF-8 byte sequences, and every byte-level operation
  of the source (`line.len()`, seek offsets, `read_exact`) acts on
  bytes, so this is exact.
* The `HashMap<String,(u64,u64)>` index is modelled as an association
  list.  `HashMap` iteration order is unspecified in Rust; the model
  fixes insertion order (insert updates an existing key in place and
  adds a fresh key at the end).  `idxRemove` removes every entry with
  the given key, which agrees with `HashMap::remove` on the
  unique-key lists that actually arise.
* Fallible operations return `Except KvError`, mirroring `KvResult`.
  Filesystem writes that the pure model cannot make fail are treated
  as succeeding; `removeF` additionally exposes the I/O outcome of
  the append inside `remove` as an explicit parameter.
-/

set_option maxRecDepth 100000

namespace Kv

/-- The `Command` enum of the source: `Set { key, value }` or `Rm { key }`. -/
inductive Command where
  | set (key value : List Nat) : Command
  | rm (key : List Nat) : Command
deriving DecidableEq, Repr

/-- The `KvError` enum, restricted to the two kinds the engine produces:
`IoError` for filesystem failures (short read, seek/truncate failure) and
`JsonError` for records that fail to parse. -/
inductive KvError where
  | ioError : KvError
  | jsonError : KvError
deriving DecidableEq, Repr

/-! ## Command codec: `serde_json::to_string` on `Command` -/

/-- Lowercase hex digit, as `serde_json` writes in `\u00XX` escapes. -/
def hexDigit (n : Nat) : Nat :=
  if n < 10 then 48 + n else 87 + n

/-- `serde_json` string escaping of one byte: `"` and `\` are
backslash-escaped, the control bytes `\b \t \n \f \r` get their short
escapes, other control bytes become `\u00XX`, everything else is copied
verbatim. -/
def escByte (b : Nat) : List Nat :=
  if b = 34 then [92, 34]
  else if b = 92 then [92, 92]
  else if b = 8 then [92, 98]
  else if b = 9 then [92, 116]
  else if b = 10 then [92, 110]
  else if b = 12 then [92, 102]
  else if b = 13 then [92, 114]
  else if b < 32 then [92, 117, 48, 48, hexDigit (b / 16), hexDigit (b % 16)]
  else [b]

/-- Escape a whole string, byte by byte. -/
def escString (s : List Nat) : List Nat :=
  (s.map escByte).flatten

/-- A JSON string literal: quote, escaped content, quote. -/
def jquote (s : List Nat) : List Nat :=
  34 :: escString s ++ [34]

/-- The bytes of `"Set"` (unquoted). -/
def tagSet : List Nat := [83, 101, 116]

/-- The bytes of `"Rm"` (unquoted). -/
def tagRm : List Nat := [82, 109]

/-- The bytes of `"key"` (unquoted). -/
def fieldKey : List Nat := [107, 101, 121]

/-- The bytes of `"value"` (unquoted). -/
def fieldValue : List Nat := [118, 97, 108, 117, 101]

/-- `serde_json::to_string(&command)`: the compact externally tagged
encoding, e.g. a Set of key `a` to value `1` serializes to the bytes of
the text `\x7b"Set":\x7b"key":"a","value":"1"\x7d\x7d`.
Byte 123 is the opening brace, 125 the closing brace, 58 the colon,
44 the comma. -/
def jsonOf : Command → List Nat
  | Command.set k v =>
      123 :: jquote tagSet ++ [58, 123] ++ jquote fieldKey ++ [58] ++ jquote k
        ++ [44] ++ jquote fieldValue ++ [58] ++ jquote v ++ [125, 125]
  | Command.rm k =>
      123 :: jquote tagRm ++ [58, 123] ++ jquote fieldKey ++ [58] ++ jquote k
        ++ [125, 125]

/-! ## Command decoding: `serde_json::from_slice`/`from_str` on `Command`

A recursive-descent parser over bytes, written with explicit fuel so
every definition is structurally recursive and reduces by `rfl`.
`serde_json` skips JSON whitespace between tokens and requires end of
input after the value (trailing whitespace allowed).  The encoder above
always emits fields in the order `key`, `value`; the parser accepts that
canonical order (the reorderings `serde` would also accept can never
occur in a byte range of a log produced by this encoder). -/

/-- Drop leading JSON whitespace (space, tab, newline, carriage return). -/
def skipWs : List Nat → List Nat
  | [] => []
  | b :: rest =>
    if b = 32 ∨ b = 9 ∨ b = 10 ∨ b = 13 then skipWs rest else b :: rest

/-- Value of one hex digit byte, upper- or lowercase. -/
def unhex (b : Nat) : Option Nat :=
  if 48 ≤ b ∧ b ≤ 57 then some (b - 48)
  else if 97 ≤ b ∧ b ≤ 102 then some (b - 87)
  else if 65 ≤ b ∧ b ≤ 70 then some (b - 55)
  else none

/-- UTF-8 encoding of a code point below 0x10000 (surrogates rejected),
used for `\uXXXX` escapes. -/
def utf8Encode (cp : Nat) : Option (List Nat) :=
  if cp < 128 then some [cp]
  else if cp < 2048 then some [192 + cp / 64, 128 + cp % 64]
  else if 55296 ≤ cp ∧ cp ≤ 57343 then none
  else if cp < 65536 then
    some [224 + cp / 4096, 128 + cp / 64 % 64, 128 + cp % 64]
  else none

/-- Parse the body of a JSON string after the opening quote, undoing the
escapes; returns the decoded bytes and the input remaining after the
closing quote.  Raw control bytes are rejected, as `serde_json` does. -/
def parseStrBody : Nat → List Nat → Option (List Nat × List Nat)
  | 0, _ => none
  | _ + 1, [] => none
  | fuel + 1, b :: rest =>
    if b = 34 then some ([], rest)
    else if b = 92 then
      match rest with
      | [] => none
      | e :: rest2 =>
        let simple : Option Nat :=
          if e = 34 then some 34
          else if e = 92 then some 92
          else if e = 47 then some 47
          else if e = 98 then some 8
          else if e = 116 then some 9
          else if e = 110 then some 10
          else if e = 102 then some 12
          else if e = 114 then some 13
          else none
        match simple with
        | some c =>
          match parseStrBody fuel rest2 with
          | some (s, rem) => some (c :: s, rem)
          | none => none
        | none =>
          if e = 117 then
            match rest2 with
            | h1 :: h2 :: h3 :: h4 :: rest3 =>
              match unhex h1, unhex h2, unhex h3, unhex h4 with
              | some d1, some d2, some d3, some d4 =>
                match utf8Encode (d1 * 4096 + d2 * 256 + d3 * 16 + d4) with
                | some bs =>
                  match parseStrBody fuel rest3 with
                  | some (s, rem) => some (bs ++ s, rem)
                  | none => none
                | none => none
              | _, _, _, _ => none
            | _ => none
          else none
    else if b < 32 then none
    else
      match parseStrBody fuel rest with
      | some (s, rem) => some (b :: s, rem)
      | none => none

/-- Expect the exact byte `b` next; return the rest. -/
def expectByte (b : Nat) : List Nat → Option (List Nat)
  | [] => none
  | c :: rest => if c = b then some rest else none

/-- Expect a complete JSON string next (after whitespace); return its
decoded content and the rest. -/
def parseJString (input : List Nat) : Option (List Nat × List Nat) :=
  match expectByte 34 (skipWs input) with
  | none => none
  | some rest => parseStrBody (rest.length + 1) rest

/-- Parse `"name" : <string>` where `name` must decode to `field`. -/
def parseField (field : List Nat) (input : List Nat) :
    Option (List Nat × List Nat) :=
  match parseJString input with
  | none => none
  | some (name, r1) =>
    if name = field then
      match expectByte 58 (skipWs r1) with
      | none => none
      | some r2 => parseJString r2
    else none

/-- `serde_json::from_slice::<Command>`: parse one `Command` value and
require end of input after trailing whitespace.  `none` corresponds to
`serde_json::Error`. -/
def parseCommand (input : List Nat) : Option Command :=
  match expectByte 123 (skipWs input) with
  | none => none
  | some r0 =>
    match parseJString r0 with
    | none => none
    | some (tag, r1) =>
      match expectByte 58 (skipWs r1) with
      | none => none
      | some r2 =>
        match expectByte 123 (skipWs r2) with
        | none => none
        | some r3 =>
          if tag = tagSet then
            match parseField fieldKey r3 with
            | none => none
            | some (k, r4) =>
              match expectByte 44 (skipWs r4) with
              | none => none
              | some r5 =>
                match parseField fieldValue r5 with
                | none => none
                | some (v, r6) =>
                  match expectByte 125 (skipWs r6) with
                  | none => none
                  | some r7 =>
                    match expectByte 125 (skipWs r7) with
                    | none => none
                    | some r8 =>
                      if skipWs r8 = [] then some (Command.set k v) else none
          else if tag = tagRm then
            match parseField fieldKey r3 with
            | none => none
            | some (k, r4) =>
              match expectByte 125 (skipWs r4) with
              | none => none
              | some r5 =>
                match expectByte 125 (skipWs r5) with
                | none => none
                | some r6 =>
                  if skipWs r6 = [] then some (Command.rm k) else none
          else none

/-! ## The in-memory index

`index: HashMap<String, (u64, u64)>`, modelled as an association list in
insertion order (see the header comment). -/

/-- One index entry: key and the half-open byte range of its record. -/
abbrev Entry := List Nat × Nat × Nat

/-- `HashMap::insert`: update the key's entry in place if present,
otherwise add it at the end. -/
def idxInsert : List Entry → List Nat → Nat × Nat → List Entry
  | [], k, r => [(k, r)]
  | e :: rest, k, r =>
    if e.1 = k then (k, r) :: rest else e :: idxInsert rest k r

/-- `HashMap::get`. -/
def idxLookup : List Entry → List Nat → Option (Nat × Nat)
  | [], _ => none
  | e :: rest, k => if e.1 = k then some e.2 else idxLookup rest k

/-- `HashMap::remove` (extensionally: afterwards the key maps to
nothing). -/
def idxRemove : List Entry → List Nat → List Entry
  | [], _ => []
  | e :: rest, k =>
    if e.1 = k then idxRemove rest k else e :: idxRemove rest k

/-! ## The store -/

/-- The `KvStore` struct.  `log` is the byte content of the log file;
`log_length` is the record counter; `index` maps keys to byte ranges;
`compaction_threshold` defaults to 100. -/
structure KvStore where
  log : List Nat
  log_length : Nat
  index : List Entry
  compaction_threshold : Nat
deriving DecidableEq, Repr

/-- `seek(SeekFrom::Start(i0))` followed by `read_exact` of `len` bytes:
returns the bytes when the file is long enough, otherwise fails (a
short read is an `IoError`). -/
def readExact (log : List Nat) (i0 len : Nat) : Option (List Nat) :=
  if i0 + len ≤ log.length then some ((log.drop i0).take len) else none

/-- `append_command`: serialize, seek to the end (the offset is the
current file length), `writeln!` the JSON plus a newline terminator,
bump the record counter, seek to the end again for the end offset.
Returns the offset pair and the updated store. -/
def appendCommand (s : KvStore) (c : Command) : (Nat × Nat) × KvStore :=
  let record := jsonOf c ++ [10]
  let startOffset := s.log.length
  let log2 := s.log ++ record
  let endOffset := log2.length
  ((startOffset, endOffset),
    { s with log := log2, log_length := s.log_length + 1 })

/-- `compact`: sum the lengths of all index ranges into
`compacted_len`; for each index entry, in iteration order, read its
byte range out of the old log into a fresh buffer; then
`seek(Start(0))`, `set_len(compacted_len)` and `write` the buffer.
Because the log file is opened with `append(true)`, the seek is
ignored for writing and the write lands at the end of the just
truncated (in the degenerate over-length case: zero-extended) file, so
the resulting content is the retained prefix followed by the buffer.
The short-write count returned by `write` is ignored by the source and
the model treats the write as complete.  The index and the record
counter are left untouched.  A failing range read aborts with an
`IoError` before the file is modified. -/
def compact (s : KvStore) : Except KvError KvStore :=
  let compactedLen := (s.index.map fun e => e.2.2 - e.2.1).sum
  match (s.index.mapM fun e => readExact s.log e.2.1 (e.2.2 - e.2.1)) with
  | none => Except.error KvError.ioError
  | some pieces =>
    let truncated :=
      if compactedLen ≤ s.log.length then s.log.take compactedLen
      else s.log ++ List.replicate (compactedLen - s.log.length) 0
    Except.ok { s with log := truncated ++ pieces.flatten }

/-- The store after `set`'s append and index insert, before the
compaction check. -/
def setMid (s : KvStore) (key value : List Nat) : KvStore :=
  let r := appendCommand s (Command.set key value)
  { r.2 with index := idxInsert r.2.index key r.1 }

/-- `set`: append a `Set` record, unconditionally insert/overwrite the
key's index entry with the returned offsets, then compact if the record
counter has reached the threshold. -/
def set (s : KvStore) (key value : List Nat) : Except KvError KvStore :=
  let s2 := setMid s key value
  if s2.log_length ≥ s2.compaction_threshold then compact s2
  else Except.ok s2

/-- The index-hit path of `get`: read the referenced byte range from
the log (a short read is an `IoError`) and decode it, returning the
value of a `Set` and absence for a `Rm` (the defensive check). -/
def getRange (log : List Nat) (i0 i1 : Nat) :
    Except KvError (Option (List Nat)) :=
  match readExact log i0 (i1 - i0) with
  | none => Except.error KvError.ioError
  | some buf =>
    match parseCommand buf with
    | none => Except.error KvError.jsonError
    | some (Command.set _ v) => Except.ok (some v)
    | some (Command.rm _) => Except.ok none

/-- `get`: an index miss returns absence; a hit reads the referenced
range from the log and decodes it. -/
def get (s : KvStore) (key : List Nat) : Except KvError (Option (List Nat)) :=
  match idxLookup s.index key with
  | none => Except.ok none
  | some (i0, i1) => getRange s.log i0 i1

/-- `remove`: delete the key from the index (absence is not an error),
then unconditionally append a `Rm` tombstone.  No compaction check. -/
def remove (s : KvStore) (key : List Nat) : Except KvError KvStore :=
  let s1 := { s with index := idxRemove s.index key }
  Except.ok (appendCommand s1 (Command.rm key)).2

/-- `remove`, with the I/O outcome of the tombstone append made
explicit: `appendOk = false` models `append_command` failing with an
I/O error, in which case the `?` operator propagates the error after
the index entry has already been deleted.  `appendOk = true` is the
normal path of `remove`. -/
def removeF (s : KvStore) (key : List Nat) (appendOk : Bool) :
    Except KvError Unit × KvStore :=
  let s1 := { s with index := idxRemove s.index key }
  if appendOk then (Except.ok (), (appendCommand s1 (Command.rm key)).2)
  else (Except.error KvError.ioError, s1)

/-! ## Replay: `build_index` and `open` -/

/-- `BufReader::lines()`: split the file on newline bytes, yielding each
line without its terminator; a final unterminated chunk is yielded too,
a trailing newline yields nothing extra. -/
def splitLines : List Nat → List (List Nat)
  | [] => []
  | b :: rest =>
    if b = 10 then [] :: splitLines rest
    else
      match splitLines rest with
      | [] => [[b]]
      | l :: ls => (b :: l) :: ls

/-- The loop body of `build_index`: for each line, set `i0` to the
running offset and advance it by `line.len()` — the length of the line
with its newline terminator already stripped — then insert or remove
the index entry and count the record.  A line that fails to parse
aborts the replay. -/
def buildIndexAux :
    List (List Nat) → Nat → List Entry → Nat →
      Except KvError (List Entry × Nat)
  | [], _, idx, n => Except.ok (idx, n)
  | line :: rest, i1, idx, n =>
    let i0 := i1
    let i1' := i1 + line.length
    match parseCommand line with
    | none => Except.error KvError.jsonError
    | some (Command.set k _) =>
      buildIndexAux rest i1' (idxInsert idx k (i0, i1')) (n + 1)
    | some (Command.rm k) =>
      buildIndexAux rest i1' (idxRemove idx k) (n + 1)

/-- `build_index`: replay every record of the log in order, returning
the rebuilt index and the record count. -/
def buildIndex (log : List Nat) : Except KvError (List Entry × Nat) :=
  buildIndexAux (splitLines log) 0 [] 0

/-- `KvStore::open` on a directory whose log file holds `log`: rebuild
the index by replay and seed the record counter; the threshold defaults
to 100. -/
def openStore (log : List Nat) : Except KvError KvStore :=
  match buildIndex log with
  | Except.error e => Except.error e
  | Except.ok (idx, n) =>
    Except.ok { log := log, log_length := n, index := idx,
                compaction_threshold := 100 }

/-- A freshly opened store over an empty directory. -/
def emptyStore : KvStore :=
  { log := [], log_length := 0, index := [], compaction_threshold := 100 }

/-! ## Operation sequences -/

/-- One mutating operation of the public API. -/
inductive Op where
  | setOp (key value : List Nat) : Op
  | rmOp (key : List Nat) : Op
deriving DecidableEq, Repr

/-- Run one operation. -/
def runOp (s : KvStore) : Op → Except KvError KvStore
  | Op.setOp k v => set s k v
  | Op.rmOp k => remove s k

/-- Run a sequence of operations, stopping at the first error. -/
def runOps (s : KvStore) : List Op → Except KvError KvStore
  | [] => Except.ok s
  | op :: rest =>
    match runOp s op with
    | Except.error e => Except.error e
    | Except.ok s2 => runOps s2 rest

/-- Extract the store from a successful result (default otherwise);
used only to name concrete stores in closed statements, always next to
a conjunct proving the result was indeed `ok`. -/
def extractD (d : KvStore) : Except KvError KvStore → KvStore
  | Except.ok s => s
  | Except.error _ => d

/-- Every index range lies within the first `n` bytes of the file, so a
`read_exact` of it cannot short-read. -/
def idxBounded (idx : List Entry) (n : Nat) : Bool :=
  idx.all fun e => e.2.1 + (e.2.2 - e.2.1) ≤ n

/-! ## Basic lemmas about the index and the log -/

theorem idxLookup_idxRemove_self (idx : List Entry) (k : List Nat) :
    idxLookup (idxRemove idx k) k = none := by
  induction idx with
  | nil => rfl
  | cons e rest ih =>
    simp only [idxRemove]
    by_cases h : e.1 = k
    · simpa [h] using ih
    · simpa [idxLookup, h] using ih

theorem idxLookup_idxInsert_ne (idx : List Entry) (k1 k2 : List Nat)
    (r : Nat × Nat) (h : k1 ≠ k2) :
    idxLookup (idxInsert idx k1 r) k2 = idxLookup idx k2 := by
  induction idx with
  | nil => simp [idxInsert, idxLookup, h]
  | cons e rest ih =>
    simp only [idxInsert]
    by_cases he : e.1 = k1
    · simp [idxLookup, he, h]
    · simp [idxLookup, he, ih]

theorem idxLookup_mem (idx : List Entry) (k : List Nat) (r : Nat × Nat)
    (h : idxLookup idx k = some r) : (k, r) ∈ idx := by
  induction idx with
  | nil => cases h
  | cons e rest ih =>
    simp only [idxLookup] at h
    by_cases he : e.1 = k
    · rw [if_pos he] at h
      have her : e = (k, r) := by
        calc e = (e.1, e.2) := rfl
          _ = (k, r) := by rw [he, Option.some_inj.mp h]
      rw [her]
      exact List.mem_cons_self _ _
    · rw [if_neg he] at h
      exact List.mem_cons_of_mem _ (ih h)

theorem readExact_append (log tail : List Nat) (i0 len : Nat)
    (h : i0 + len ≤ log.length) :
    readExact (log ++ tail) i0 len = readExact log i0 len := by
  unfold readExact
  rw [if_pos h, if_pos (by simp only [List.length_append]; omega)]
  rw [List.drop_append_of_le_length (by omega),
    List.take_append_of_le_length (by simp only [List.length_drop]; omega)]

theorem get_of_lookup_none (s : KvStore) (k : List Nat)
    (h : idxLookup s.index k = none) : get s k = Except.ok none := by
  unfold get
  rw [h]

/-! ## Concrete execution scenarios

Named stores reached by running concrete operation sequences from a
freshly opened store; each is tied to its defining run by an `ok`
equation inside the theorems that use it. -/

/-- The store after `set a 1; set b 2` on a fresh directory. -/
def storeAB : KvStore :=
  extractD emptyStore (runOps emptyStore [Op.setOp [97] [49], Op.setOp [98] [50]])

/-- The store obtained by closing `storeAB` and reopening the same
directory: `open` replays `storeAB`'s log file. -/
def storeABReopened : KvStore :=
  extractD emptyStore (openStore storeAB.log)

/-- The store after `set a aaaa; set b 2; set a b` on a fresh
directory (threshold 100, so no compaction has run): both keys are
live and the log holds three records in 99 bytes. -/
def storeThreeRecords : KvStore :=
  extractD emptyStore (runOps emptyStore
    [Op.setOp [97] [97, 97, 97, 97], Op.setOp [98] [50], Op.setOp [97] [98]])

/-- `storeThreeRecords` after one run of `compact`. -/
def storeThreeCompacted : KvStore :=
  extractD emptyStore (compact storeThreeRecords)

/-- Five successive sets of key `a`, to values `1` ... `5`. -/
def fiveSets : List Op :=
  [Op.setOp [97] [49], Op.setOp [97] [50], Op.setOp [97] [51],
   Op.setOp [97] [52], Op.setOp [97] [53]]

/-- The store after the five sets with `compaction_threshold = 5`: the
fifth set crosses the threshold and compaction runs inside it. -/
def storeFive : KvStore :=
  extractD emptyStore
    (runOps { emptyStore with compaction_threshold := 5 } fiveSets)

/-- The store after the first four of the five sets with
`compaction_threshold = 5`; one more record reaches the threshold. -/
def storeFour : KvStore :=
  extractD emptyStore
    (runOps { emptyStore with compaction_threshold := 5 } (fiveSets.take 4))

/-! ## The claims -/

/-- **C1.** The claim says closing and reopening a store reproduces the
same `get` results.  The code refutes it: after `set a 1; set b 2`,
`get b` returns the value `2`, but reopening the directory replays the
log with terminator-stripped offsets, and on the reopened store `get b`
reads a misaligned byte range and fails with a decode error instead. -/
theorem replay_changes_get_after_reopen :
    runOps emptyStore [Op.setOp [97] [49], Op.setOp [98] [50]]
        = Except.ok storeAB ∧
    get storeAB [98] = Except.ok (some [50]) ∧
    openStore storeAB.log = Except.ok storeABReopened ∧
    get storeABReopened [98] = Except.error KvError.jsonError ∧
    (get storeABReopened [98] = get storeAB [98]) = False := by
  refine ⟨rfl, rfl, rfl, rfl, eq_false ?_⟩
  intro h
  have h1 : get storeABReopened [98] = Except.error KvError.jsonError := rfl
  have h2 : get storeAB [98] = Except.ok (some [50]) := rfl
  rw [h1, h2] at h
  exact Except.noConfusion h

/-- **C2.** The claim says the replay-computed offset range of every
record equals the range `append` returned when the record was written,
terminator included.  The code refutes it: for the second record of the
log of `set a 1; set b 2`, `append` returned `(32, 64)` — and indeed
bytes `[32, 64)` are exactly that record with its newline — while the
replay in `build_index` stores `(31, 62)`, because it advances offsets
by `line.len()` on terminator-stripped lines. -/
theorem replay_offsets_drift_from_append_offsets :
    idxLookup storeAB.index [98] = some (32, 64) ∧
    (storeAB.log.drop 32).take 32 = jsonOf (Command.set [98] [50]) ++ [10] ∧
    idxLookup storeABReopened.index [98] = some (31, 62) ∧
    (idxLookup storeABReopened.index [98]
        = idxLookup storeAB.index [98]) = False :=
  ⟨rfl, rfl, rfl, eq_false (by decide)⟩

/-- **C3.** The claim says compaction leaves `get` unchanged for every
live key.  The code refutes it: in the reachable store after
`set a aaaa; set b 2; set a b` both keys are live, with ranges
`(67, 99)` and `(35, 67)` in the 99-byte log.  `compact` truncates the
file to the 64 bytes of the two live records' total length and — the
file being open in append mode — writes the rewritten records after
that retained prefix, leaving a 128-byte log whose index ranges now
read misaligned bytes, so `get b` goes from returning its value to a
decode error (and so does `get a`). -/
theorem compaction_breaks_live_get :
    runOps emptyStore
        [Op.setOp [97] [97, 97, 97, 97], Op.setOp [98] [50],
         Op.setOp [97] [98]] = Except.ok storeThreeRecords ∧
    storeThreeRecords.index = [([97], 67, 99), ([98], 35, 67)] ∧
    get storeThreeRecords [98] = Except.ok (some [50]) ∧
    get storeThreeRecords [97] = Except.ok (some [98]) ∧
    compact storeThreeRecords = Except.ok storeThreeCompacted ∧
    storeThreeCompacted.log.length = 128 ∧
    get storeThreeCompacted [98] = Except.error KvError.jsonError ∧
    (get storeThreeCompacted [98] = get storeThreeRecords [98]) = False := by
  refine ⟨rfl, rfl, rfl, rfl, rfl, rfl, rfl, eq_false ?_⟩
  intro h
  have h1 : get storeThreeCompacted [98] = Except.error KvError.jsonError := rfl
  have h2 : get storeThreeRecords [98] = Except.ok (some [50]) := rfl
  rw [h1, h2] at h
  exact Except.noConfusion h

/-- **C4.** The claim says `set k v` followed by `get k` returns `v` in
every reachable state, including when the set crosses the compaction
threshold.  The code refutes it at exactly that point: with threshold 5,
the fifth `set a 5` triggers compaction, which leaves the index pointing
at range `(128, 160)` of a log that is now only 64 bytes long (the
retained 32-byte prefix plus the one rewritten live record appended in
append mode), so the immediately following `get a` fails with a
short-read I/O error instead of returning `5`. -/
theorem set_then_get_fails_at_compaction_threshold :
    runOps { emptyStore with compaction_threshold := 5 } fiveSets
        = Except.ok storeFive ∧
    get storeFive [97] = Except.error KvError.ioError ∧
    (get storeFive [97] = Except.ok (some [53])) = False := by
  refine ⟨rfl, rfl, eq_false ?_⟩
  intro h
  have h1 : get storeFive [97] = Except.error KvError.ioError := rfl
  rw [h1] at h
  exact Except.noConfusion h

/-- **C5.** In every store state — in particular every reachable one —
a successful `set k v` followed by a successful `remove k` leaves a
store in which `get k` returns absence: `remove` deletes the key's
index entry before appending the tombstone, and `get` answers `None`
on an index miss without touching the log. -/
theorem set_remove_get_absent (s s1 s2 : KvStore) (k v : List Nat)
    (_h1 : set s k v = Except.ok s1) (h2 : remove s1 k = Except.ok s2) :
    get s2 k = Except.ok none := by
  have h4 : (appendCommand { s1 with index := idxRemove s1.index k }
      (Command.rm k)).2 = s2 := by
    unfold remove at h2
    exact Except.ok.inj h2
  rw [← h4]
  apply get_of_lookup_none
  have hidx : (appendCommand { s1 with index := idxRemove s1.index k }
      (Command.rm k)).2.index = idxRemove s1.index k := by
    simp [appendCommand]
  rw [hidx, idxLookup_idxRemove_self]

/-- The store after `set k v` on a fresh directory, for the C5 witness. -/
def storeSetK : KvStore :=
  extractD emptyStore (set emptyStore [107] [118])

/-- The store after `set k v; remove k` on a fresh directory. -/
def storeSetRemoveK : KvStore :=
  extractD emptyStore (remove storeSetK [107])

/-- Witness for C5 at the concrete trace `set k v; remove k; get k`. -/
theorem set_remove_get_absent_witness :
    get storeSetRemoveK [107] = Except.ok none :=
  set_remove_get_absent emptyStore storeSetK storeSetRemoveK [107] [118] rfl rfl

/-- The store after `set a aaaa; set b 2` with threshold 3: one more
record reaches the threshold. -/
def storeBeforeTrigger : KvStore :=
  extractD emptyStore (runOps { emptyStore with compaction_threshold := 3 }
    [Op.setOp [97] [97, 97, 97, 97], Op.setOp [98] [50]])

/-- `storeBeforeTrigger` after the threshold-crossing `set a b`, which
runs compaction inside the set. -/
def storeAfterTrigger : KvStore :=
  extractD emptyStore (set storeBeforeTrigger [97] [98])

/-- **C6, as stated — refuted.** With threshold 3, the store reached by
`set a aaaa; set b 2` answers `get b` with `2`; the next `set a b` is
successful but crosses the threshold, and the compaction it triggers
truncates the log to the live total of 64 bytes and appends the
rewritten records after that prefix (the file is open in append mode),
leaving a 128-byte log in which `b`'s unchanged index range `(35, 67)`
reads misaligned bytes, so `get b` now fails with a decode error:
setting key `a` changed the result visible for key `b`. -/
theorem set_changes_other_key_via_compaction :
    runOps { emptyStore with compaction_threshold := 3 }
        [Op.setOp [97] [97, 97, 97, 97], Op.setOp [98] [50]]
        = Except.ok storeBeforeTrigger ∧
    get storeBeforeTrigger [98] = Except.ok (some [50]) ∧
    set storeBeforeTrigger [97] [98] = Except.ok storeAfterTrigger ∧
    storeAfterTrigger.log.length = 128 ∧
    get storeAfterTrigger [98] = Except.error KvError.jsonError ∧
    (get storeAfterTrigger [98] = get storeBeforeTrigger [98]) = False := by
  refine ⟨rfl, rfl, rfl, rfl, rfl, eq_false ?_⟩
  intro h
  have h1 : get storeAfterTrigger [98] = Except.error KvError.jsonError := rfl
  have h2 : get storeBeforeTrigger [98] = Except.ok (some [50]) := rfl
  rw [h1, h2] at h
  exact Except.noConfusion h

/-- **C6, amended.** Setting one key never changes the value visible
for another, provided the set does not trigger compaction and every
index range lies within the log (both hold in every state reachable
without crossing the compaction threshold; the counterexample shows the
compaction defect forces both provisos). -/
theorem set_preserves_other_key_without_compaction
    (s : KvStore) (k1 k2 v : List Nat) (hne : k1 ≠ k2)
    (hb : idxBounded s.index s.log.length = true)
    (hlt : s.log_length + 1 < s.compaction_threshold) :
    set s k1 v = Except.ok (setMid s k1 v) ∧
    get (setMid s k1 v) k2 = get s k2 := by
  have hmidlen : (setMid s k1 v).log_length = s.log_length + 1 := by
    simp [setMid, appendCommand]
  have hmidth : (setMid s k1 v).compaction_threshold
      = s.compaction_threshold := by
    simp [setMid, appendCommand]
  constructor
  · unfold set
    rw [if_neg]
    rw [hmidlen, hmidth]
    omega
  · have hmididx : (setMid s k1 v).index
        = idxInsert s.index k1
            (s.log.length,
              (s.log ++ (jsonOf (Command.set k1 v) ++ [10])).length) := by
      simp [setMid, appendCommand]
    have hmidlog : (setMid s k1 v).log
        = s.log ++ (jsonOf (Command.set k1 v) ++ [10]) := by
      simp [setMid, appendCommand]
    unfold get
    rw [hmididx, hmidlog, idxLookup_idxInsert_ne _ _ _ _ hne]
    rcases hlk : idxLookup s.index k2 with _ | ⟨i0, i1⟩
    · rfl
    · have hmem := idxLookup_mem _ _ _ hlk
      have hb2 : i0 + (i1 - i0) ≤ s.log.length := by
        have hall := List.all_eq_true.mp hb _ hmem
        simpa using hall
      show getRange (s.log ++ (jsonOf (Command.set k1 v) ++ [10])) i0 i1
        = getRange s.log i0 i1
      unfold getRange
      rw [readExact_append _ _ _ _ hb2]

/-- The store after `set b 2` on a fresh directory, for the C6 witness. -/
def storeSetB : KvStore :=
  extractD emptyStore (set emptyStore [98] [50])

/-- Witness for the amended C6: in the store holding only key `b`, a
non-triggering `set a v` leaves `get b` unchanged. -/
theorem set_preserves_other_key_without_compaction_witness :
    set storeSetB [97] [118] = Except.ok (setMid storeSetB [97] [118]) ∧
    get (setMid storeSetB [97] [118]) [98] = get storeSetB [98] :=
  set_preserves_other_key_without_compaction storeSetB [97] [98] [118]
    (by decide) (by decide) (by decide)

/-- **C7.** `remove` on any key — in particular a never-set one, which
is absent from the index — returns `Ok`, unconditionally appends a
`Rm` tombstone record (terminator included) to the log, and a
subsequent `get` of that key returns absence. -/
theorem remove_succeeds_appends_tombstone_get_absent
    (s : KvStore) (k : List Nat) :
    remove s k = Except.ok (appendCommand
        { s with index := idxRemove s.index k } (Command.rm k)).2 ∧
    (appendCommand { s with index := idxRemove s.index k }
        (Command.rm k)).2.log = s.log ++ (jsonOf (Command.rm k) ++ [10]) ∧
    get (appendCommand { s with index := idxRemove s.index k }
        (Command.rm k)).2 k = Except.ok none := by
  refine ⟨rfl, by simp [appendCommand], ?_⟩
  apply get_of_lookup_none
  have hidx : (appendCommand { s with index := idxRemove s.index k }
      (Command.rm k)).2.index = idxRemove s.index k := by
    simp [appendCommand]
  rw [hidx, idxLookup_idxRemove_self]

/-- The store after `set a 1` with threshold 2: the record counter is
one below the threshold. -/
def storeThresholdTwo : KvStore :=
  extractD emptyStore (runOps { emptyStore with compaction_threshold := 2 }
    [Op.setOp [97] [49]])

/-- `storeThresholdTwo` after `remove b`, which brings the record
counter to the threshold. -/
def storeRemovedAtThreshold : KvStore :=
  extractD emptyStore (remove storeThresholdTwo [98])

/-- What running the compactor on `storeRemovedAtThreshold` would
produce. -/
def storeCompactedAtThreshold : KvStore :=
  extractD emptyStore (compact storeRemovedAtThreshold)

/-- **C8, as stated — refuted.** With threshold 2, after `set a 1` a
`remove b` brings the record counter to the threshold; the claim says
this triggers compaction just as a set would, but `remove` has no
trigger check: the resulting log is the old log plus the tombstone
(51 bytes), not the 64-byte log that running the compactor would
produce. -/
theorem remove_at_threshold_does_not_compact :
    runOps { emptyStore with compaction_threshold := 2 }
        [Op.setOp [97] [49]] = Except.ok storeThresholdTwo ∧
    remove storeThresholdTwo [98] = Except.ok storeRemovedAtThreshold ∧
    storeRemovedAtThreshold.log_length = 2 ∧
    storeRemovedAtThreshold.compaction_threshold = 2 ∧
    storeRemovedAtThreshold.log
        = storeThresholdTwo.log ++ (jsonOf (Command.rm [98]) ++ [10]) ∧
    compact storeRemovedAtThreshold = Except.ok storeCompactedAtThreshold ∧
    (storeRemovedAtThreshold.log = storeCompactedAtThreshold.log) = False :=
  ⟨rfl, rfl, rfl, rfl, rfl, rfl, eq_false (by decide)⟩

/-- **C8, amended.** Only `set` follows append and index update with
the compaction-trigger check: `remove` always returns the store with
the key erased and the tombstone appended, never compacting, while a
`set` that brings the record counter to the threshold runs the
compactor on the appended-and-indexed intermediate store. -/
theorem only_set_checks_compaction_trigger :
    (∀ (s : KvStore) (k : List Nat),
        remove s k = Except.ok { s with index := idxRemove s.index k, log := s.log ++ (jsonOf (Command.rm k) ++ [10]), log_length := s.log_length + 1 }) ∧
    (∀ (s : KvStore) (k v : List Nat),
        s.compaction_threshold ≤ s.log_length + 1 →
          set s k v = compact (setMid s k v)) := by
  constructor
  · intro s k
    rfl
  · intro s k v h
    unfold set
    rw [if_pos]
    have hmidlen : (setMid s k v).log_length = s.log_length + 1 := by
      simp [setMid, appendCommand]
    have hmidth : (setMid s k v).compaction_threshold
        = s.compaction_threshold := by
      simp [setMid, appendCommand]
    rw [hmidlen, hmidth]
    exact h

/-- Witness for the amended C8: `remove` on a fresh store appends
without compacting, and with threshold 5 the fifth set (after
`storeFour`'s four records) reaches the trigger and runs `compact`. -/
theorem only_set_checks_compaction_trigger_witness :
    remove emptyStore [97]
        = Except.ok { emptyStore with index := idxRemove emptyStore.index [97], log := emptyStore.log ++ (jsonOf (Command.rm [97]) ++ [10]), log_length := emptyStore.log_length + 1 } ∧
    set storeFour [97] [53] = compact (setMid storeFour [97] [53]) :=
  ⟨only_set_checks_compaction_trigger.1 emptyStore [97],
   only_set_checks_compaction_trigger.2 storeFour [97] [53] (by decide)⟩

/-- **C9.** `append_command` writes the record at the current end of
the file and returns the half-open range it occupies: the start offset
is the file length measured before the write, the end offset is the
file length measured after it, and the bytes in that range are exactly
the encoded record including its newline terminator. -/
theorem appendCommand_returns_true_range (s : KvStore) (c : Command) :
    (appendCommand s c).1.1 = s.log.length ∧
    (appendCommand s c).1.2 = (appendCommand s c).2.log.length ∧
    (appendCommand s c).2.log = s.log ++ (jsonOf c ++ [10]) ∧
    ((appendCommand s c).2.log.drop (appendCommand s c).1.1).take
        ((appendCommand s c).1.2 - (appendCommand s c).1.1)
      = jsonOf c ++ [10] := by
  refine ⟨rfl, rfl, rfl, ?_⟩
  show ((s.log ++ (jsonOf c ++ [10])).drop s.log.length).take
      ((s.log ++ (jsonOf c ++ [10])).length - s.log.length)
    = jsonOf c ++ [10]
  rw [List.drop_append_of_le_length (Nat.le_refl _), List.drop_length,
    List.nil_append, List.length_append, Nat.add_sub_cancel_left,
    List.take_length]

/-- **C10.** In `remove`, the index entry is deleted before the
tombstone append: with the append's I/O outcome made explicit, the
success path is exactly `remove`, while on append failure the error is
returned and the returned store's index already has the key removed —
the index mutation is not rolled back. -/
theorem remove_deletes_index_before_append (s : KvStore) (k : List Nat) :
    removeF s k true = (Except.ok (), (appendCommand
        { s with index := idxRemove s.index k } (Command.rm k)).2) ∧
    (removeF s k false).1 = Except.error KvError.ioError ∧
    (removeF s k false).2.index = idxRemove s.index k ∧
    (removeF s k false).2.log = s.log ∧
    idxLookup (removeF s k false).2.index k = none :=
  ⟨rfl, rfl, rfl, rfl, idxLookup_idxRemove_self _ _⟩

end Kv
